import Mathlib

/-!
Shallow embedding of the `hybrid-id-generator` library.

The definitions below are translated from the TypeScript sources:
* `src/HybridIDGenerator.ts` — the generator class (`nextId`, `nextIds`,
  `getTimestamp`, `isIdExpired`, `isHybridID`, `info`, `fromBase62`);
* `src/utils.ts` — `generateRandomBits`, `validateMachineId`,
  `encodeBase62`, `decodeBase62`;
* `src/constants.ts` — the Base62 alphabet.

Modelling conventions:
* JavaScript `BigInt` values are modelled as `Int` (or as `Nat` where the
  source value is provably non-negative); JS `number` values that hold
  integers are modelled the same way.  `BigInt` right shift is arithmetic
  shift, i.e. floor division by a power of two, modelled with `Int.fdiv`.
* Collaborators (the clock, the random-byte source, the SHA-256 digest)
  are passed in as oracle functions/streams, since the source reads them
  through narrow interfaces.
* The busy-wait loop of the sequence/clock arbiter is given explicit fuel
  and returns `none` when the fuel runs out; every theorem about it is
  conditioned on the loop having produced a value.
-/

namespace HybridId

/-- Field-width configuration and per-instance constants of a
`HybridIDGenerator` (constructor fields `sequenceBits`, `randomBits`,
`entropyBits`, `machineIdBits`, `timestampBits`, `maskTimestamp` and the
resolved `machineId`). -/
structure Config where
  sequenceBits : Nat
  randomBits : Nat
  entropyBits : Nat
  machineIdBits : Nat
  timestampBits : Nat
  maskTimestamp : Bool
  machineId : Nat
deriving Repr, DecidableEq

/-- Constructor: `this.maxSequence = (1 << this.sequenceBits) - 1`. -/
def Config.maxSequence (c : Config) : Nat := 2 ^ c.sequenceBits - 1

/-- Constructor: `this.maxMachineId = (1 << this.machineIdBits) - 1`. -/
def Config.maxMachineId (c : Config) : Nat := 2 ^ c.machineIdBits - 1

/-- Constructor: `this.maxTimestamp = (BigInt(1) << BigInt(this.timestampBits)) - BigInt(1)`. -/
def Config.maxTimestamp (c : Config) : Nat := 2 ^ c.timestampBits - 1

/-- Shift offset of the random field: `this.sequenceBits`. -/
def Config.randShift (c : Config) : Nat := c.sequenceBits

/-- Shift offset of the entropy field: `this.sequenceBits + this.randomBits`. -/
def Config.entropyShift (c : Config) : Nat := c.sequenceBits + c.randomBits

/-- Shift offset of the machine-id field:
`this.sequenceBits + this.randomBits + this.entropyBits`. -/
def Config.machineShift (c : Config) : Nat :=
  c.sequenceBits + c.randomBits + c.entropyBits

/-- Shift offset of the timestamp field (`totalBits` in `isHybridID`,
`isIdExpired` and `info`):
`this.sequenceBits + this.randomBits + this.entropyBits + this.machineIdBits`. -/
def Config.totalBits (c : Config) : Nat :=
  c.sequenceBits + c.randomBits + c.entropyBits + c.machineIdBits

/-- Bit packing, from `nextId` (identically repeated in `nextIds`):
`(timestamp << BigInt(seq+rnd+ent+mid bits)) | (machineId << ...) |
(entropyValue << ...) | (randomBits << sequenceBits) | sequence`. -/
def pack (c : Config) (ts mid ent rnd seq : Nat) : Nat :=
  (ts <<< c.totalBits) ||| (mid <<< c.machineShift) ||| (ent <<< c.entropyShift) |||
    (rnd <<< c.randShift) ||| seq

/-- Timestamp extraction, from `info` and `isHybridID`:
`id >> BigInt(totalBits)`. -/
def unpackTimestamp (c : Config) (id : Nat) : Nat := id >>> c.totalBits

/-- Machine-id extraction, from `info` and `isHybridID`:
`(id >> BigInt(machineIdShift)) & BigInt((1 << this.machineIdBits) - 1)`. -/
def unpackMachineId (c : Config) (id : Nat) : Nat :=
  (id >>> c.machineShift) &&& (2 ^ c.machineIdBits - 1)

/-- Entropy extraction.  The source never reads the entropy field back
(`info` and `isHybridID` skip it); this is the unique shift-and-mask
inverse of the entropy placement in `nextId`'s packing expression, at the
entropy offset, with the same shape as the other extractions. -/
def unpackEntropy (c : Config) (id : Nat) : Nat :=
  (id >>> c.entropyShift) &&& (2 ^ c.entropyBits - 1)

/-- Random-field extraction, from `info` and `isHybridID`:
`(id >> BigInt(this.sequenceBits)) & BigInt((1 << this.randomBits) - 1)`. -/
def unpackRandom (c : Config) (id : Nat) : Nat :=
  (id >>> c.randShift) &&& (2 ^ c.randomBits - 1)

/-- Sequence extraction, from `info` and `isHybridID`:
`id & BigInt(this.maxSequence)`. -/
def unpackSequence (c : Config) (id : Nat) : Nat := id &&& c.maxSequence

/-! Arithmetic helper lemmas about the bit layout. -/

theorem digit_lt {x j k y : Nat} (hx : x < 2 ^ j) (hy : y < 2 ^ k) :
    x * 2 ^ k + y < 2 ^ (k + j) := by
  calc x * 2 ^ k + y < x * 2 ^ k + 2 ^ k := by omega
    _ = (x + 1) * 2 ^ k := by ring
    _ ≤ 2 ^ j * 2 ^ k := Nat.mul_le_mul_right _ (Nat.succ_le_of_lt hx)
    _ = 2 ^ (k + j) := by rw [← pow_add, Nat.add_comm]

theorem shift_or_eq_add {y k : Nat} (x : Nat) (hy : y < 2 ^ k) :
    (x <<< k) ||| y = x * 2 ^ k + y := by
  rw [Nat.shiftLeft_eq, Nat.mul_comm, ← Nat.mul_add_lt_is_or hy, Nat.mul_comm]

/-- The packing expression, rewritten as plain positional arithmetic:
the timestamp is most significant and the sequence least significant,
with shift offsets determined by the field widths. -/
theorem pack_eq_add (c : Config) {mid ent rnd seq : Nat} (ts : Nat)
    (hmid : mid < 2 ^ c.machineIdBits) (hent : ent < 2 ^ c.entropyBits)
    (hrnd : rnd < 2 ^ c.randomBits) (hseq : seq < 2 ^ c.sequenceBits) :
    pack c ts mid ent rnd seq =
      ts * 2 ^ c.totalBits + mid * 2 ^ c.machineShift + ent * 2 ^ c.entropyShift +
        rnd * 2 ^ c.randShift + seq := by
  have h1 : rnd * 2 ^ c.randShift + seq < 2 ^ c.entropyShift := by
    have := digit_lt hrnd hseq
    simpa [Config.randShift, Config.entropyShift] using this
  have h2 : ent * 2 ^ c.entropyShift + (rnd * 2 ^ c.randShift + seq) <
      2 ^ c.machineShift := by
    have := digit_lt hent h1
    simpa [Config.entropyShift, Config.machineShift, Nat.add_assoc] using this
  have h3 : mid * 2 ^ c.machineShift +
      (ent * 2 ^ c.entropyShift + (rnd * 2 ^ c.randShift + seq)) <
      2 ^ c.totalBits := by
    have := digit_lt hmid h2
    simpa [Config.machineShift, Config.totalBits, Nat.add_assoc] using this
  have hseq' : seq < 2 ^ c.randShift + (2 ^ c.randShift * 0) := by
    simpa [Config.randShift] using hseq
  unfold pack
  rw [Nat.or_assoc, Nat.or_assoc, Nat.or_assoc]
  rw [shift_or_eq_add rnd (by simpa [Config.randShift] using hseq)]
  rw [shift_or_eq_add ent h1, shift_or_eq_add mid h2, shift_or_eq_add ts h3]
  ring

theorem low_lt (c : Config) {mid ent rnd seq : Nat}
    (hmid : mid < 2 ^ c.machineIdBits) (hent : ent < 2 ^ c.entropyBits)
    (hrnd : rnd < 2 ^ c.randomBits) (hseq : seq < 2 ^ c.sequenceBits) :
    mid * 2 ^ c.machineShift + ent * 2 ^ c.entropyShift +
      rnd * 2 ^ c.randShift + seq < 2 ^ c.totalBits := by
  have h1 : rnd * 2 ^ c.randShift + seq < 2 ^ c.entropyShift := by
    simpa [Config.randShift, Config.entropyShift] using digit_lt hrnd hseq
  have h2 : ent * 2 ^ c.entropyShift + (rnd * 2 ^ c.randShift + seq) <
      2 ^ c.machineShift := by
    simpa [Config.entropyShift, Config.machineShift, Nat.add_assoc] using digit_lt hent h1
  have h3 : mid * 2 ^ c.machineShift +
      (ent * 2 ^ c.entropyShift + (rnd * 2 ^ c.randShift + seq)) <
      2 ^ c.totalBits := by
    simpa [Config.machineShift, Config.totalBits, Nat.add_assoc] using digit_lt hmid h2
  omega

/-- Generic digit extraction: shifting by the field offset and masking with
the field width recovers a positional digit. -/
theorem extract_digit {d B lo S : Nat} (hi : Nat) (hd : d < 2 ^ B) (hlo : lo < 2 ^ S) :
    (((hi * 2 ^ B + d) * 2 ^ S + lo) >>> S) &&& (2 ^ B - 1) = d := by
  rw [Nat.shiftRight_eq_div_pow, Nat.and_pow_two_sub_one_eq_mod]
  have hS : 0 < 2 ^ S := Nat.two_pow_pos S
  rw [Nat.mul_comm (hi * 2 ^ B + d) (2 ^ S), Nat.mul_add_div hS,
    Nat.div_eq_of_lt hlo, Nat.add_zero, Nat.mul_comm hi (2 ^ B), Nat.mul_add_mod,
    Nat.mod_eq_of_lt hd]

theorem unpack_pack_timestamp (c : Config) {mid ent rnd seq : Nat} (ts : Nat)
    (hmid : mid < 2 ^ c.machineIdBits) (hent : ent < 2 ^ c.entropyBits)
    (hrnd : rnd < 2 ^ c.randomBits) (hseq : seq < 2 ^ c.sequenceBits) :
    unpackTimestamp c (pack c ts mid ent rnd seq) = ts := by
  rw [pack_eq_add c ts hmid hent hrnd hseq]
  unfold unpackTimestamp
  rw [Nat.shiftRight_eq_div_pow]
  have hlow := low_lt c hmid hent hrnd hseq
  have hT : 0 < 2 ^ c.totalBits := Nat.two_pow_pos _
  rw [Nat.add_assoc, Nat.add_assoc, Nat.add_assoc, Nat.mul_comm ts (2 ^ c.totalBits),
    Nat.mul_add_div hT, Nat.div_eq_of_lt (by omega), Nat.add_zero]

theorem unpack_pack_machineId (c : Config) {mid ent rnd seq : Nat} (ts : Nat)
    (hmid : mid < 2 ^ c.machineIdBits) (hent : ent < 2 ^ c.entropyBits)
    (hrnd : rnd < 2 ^ c.randomBits) (hseq : seq < 2 ^ c.sequenceBits) :
    unpackMachineId c (pack c ts mid ent rnd seq) = mid := by
  rw [pack_eq_add c ts hmid hent hrnd hseq]
  unfold unpackMachineId
  have h1 : rnd * 2 ^ c.randShift + seq < 2 ^ c.entropyShift := by
    simpa [Config.randShift, Config.entropyShift] using digit_lt hrnd hseq
  have h2 : ent * 2 ^ c.entropyShift + (rnd * 2 ^ c.randShift + seq) <
      2 ^ c.machineShift := by
    simpa [Config.entropyShift, Config.machineShift, Nat.add_assoc] using digit_lt hent h1
  have hsplit : 2 ^ c.totalBits = 2 ^ c.machineIdBits * 2 ^ c.machineShift := by
    rw [← pow_add]
    simp [Config.totalBits, Config.machineShift]
    ring_nf
  have : ts * 2 ^ c.totalBits + mid * 2 ^ c.machineShift + ent * 2 ^ c.entropyShift +
      rnd * 2 ^ c.randShift + seq =
      (ts * 2 ^ c.machineIdBits + mid) * 2 ^ c.machineShift +
        (ent * 2 ^ c.entropyShift + (rnd * 2 ^ c.randShift + seq)) := by
    rw [hsplit]; ring
  rw [this]
  exact extract_digit ts hmid h2

theorem unpack_pack_entropy (c : Config) {mid ent rnd seq : Nat} (ts : Nat)
    (hmid : mid < 2 ^ c.machineIdBits) (hent : ent < 2 ^ c.entropyBits)
    (hrnd : rnd < 2 ^ c.randomBits) (hseq : seq < 2 ^ c.sequenceBits) :
    unpackEntropy c (pack c ts mid ent rnd seq) = ent := by
  rw [pack_eq_add c ts hmid hent hrnd hseq]
  unfold unpackEntropy
  have h1 : rnd * 2 ^ c.randShift + seq < 2 ^ c.entropyShift := by
    simpa [Config.randShift, Config.entropyShift] using digit_lt hrnd hseq
  have hsplitT : 2 ^ c.totalBits =
      (2 ^ c.machineIdBits * 2 ^ c.entropyBits) * 2 ^ c.entropyShift := by
    rw [← pow_add, ← pow_add]
    simp [Config.totalBits, Config.entropyShift]
    ring_nf
  have hsplitM : 2 ^ c.machineShift = 2 ^ c.entropyBits * 2 ^ c.entropyShift := by
    rw [← pow_add]
    simp [Config.machineShift, Config.entropyShift]
    ring_nf
  have : ts * 2 ^ c.totalBits + mid * 2 ^ c.machineShift + ent * 2 ^ c.entropyShift +
      rnd * 2 ^ c.randShift + seq =
      ((ts * (2 ^ c.machineIdBits) + mid) * 2 ^ c.entropyBits + ent) * 2 ^ c.entropyShift +
        (rnd * 2 ^ c.randShift + seq) := by
    rw [hsplitT, hsplitM]; ring
  rw [this]
  exact extract_digit _ hent h1

theorem unpack_pack_random (c : Config) {mid ent rnd seq : Nat} (ts : Nat)
    (hmid : mid < 2 ^ c.machineIdBits) (hent : ent < 2 ^ c.entropyBits)
    (hrnd : rnd < 2 ^ c.randomBits) (hseq : seq < 2 ^ c.sequenceBits) :
    unpackRandom c (pack c ts mid ent rnd seq) = rnd := by
  rw [pack_eq_add c ts hmid hent hrnd hseq]
  unfold unpackRandom
  have hseq' : seq < 2 ^ c.randShift := by simpa [Config.randShift] using hseq
  have hsplitT : 2 ^ c.totalBits =
      ((2 ^ c.machineIdBits * 2 ^ c.entropyBits) * 2 ^ c.randomBits) * 2 ^ c.randShift := by
    rw [← pow_add, ← pow_add, ← pow_add]
    simp [Config.totalBits, Config.randShift]
    ring_nf
  have hsplitM : 2 ^ c.machineShift =
      (2 ^ c.entropyBits * 2 ^ c.randomBits) * 2 ^ c.randShift := by
    rw [← pow_add, ← pow_add]
    simp [Config.machineShift, Config.randShift]
    ring_nf
  have hsplitE : 2 ^ c.entropyShift = 2 ^ c.randomBits * 2 ^ c.randShift := by
    rw [← pow_add]
    simp [Config.entropyShift, Config.randShift]
    ring_nf
  have : ts * 2 ^ c.totalBits + mid * 2 ^ c.machineShift + ent * 2 ^ c.entropyShift +
      rnd * 2 ^ c.randShift + seq =
      (((ts * 2 ^ c.machineIdBits + mid) * 2 ^ c.entropyBits + ent) * 2 ^ c.randomBits
          + rnd) * 2 ^ c.randShift + seq := by
    rw [hsplitT, hsplitM, hsplitE]; ring
  rw [this]
  exact extract_digit _ hrnd hseq'

theorem unpack_pack_sequence (c : Config) {mid ent rnd seq : Nat} (ts : Nat)
    (hmid : mid < 2 ^ c.machineIdBits) (hent : ent < 2 ^ c.entropyBits)
    (hrnd : rnd < 2 ^ c.randomBits) (hseq : seq < 2 ^ c.sequenceBits) :
    unpackSequence c (pack c ts mid ent rnd seq) = seq := by
  rw [pack_eq_add c ts hmid hent hrnd hseq]
  unfold unpackSequence Config.maxSequence
  rw [Nat.and_pow_two_sub_one_eq_mod]
  have hsplitT : 2 ^ c.totalBits =
      2 ^ (c.randomBits + c.entropyBits + c.machineIdBits) * 2 ^ c.sequenceBits := by
    rw [← pow_add]
    simp [Config.totalBits]
    ring_nf
  have hsplitM : 2 ^ c.machineShift =
      2 ^ (c.randomBits + c.entropyBits) * 2 ^ c.sequenceBits := by
    rw [← pow_add]
    simp [Config.machineShift]
    ring_nf
  have hsplitE : 2 ^ c.entropyShift = 2 ^ c.randomBits * 2 ^ c.sequenceBits := by
    rw [← pow_add]
    simp [Config.entropyShift]
    ring_nf
  have hsplitR : 2 ^ c.randShift = 2 ^ c.sequenceBits := by
    simp [Config.randShift]
  have : ts * 2 ^ c.totalBits + mid * 2 ^ c.machineShift + ent * 2 ^ c.entropyShift +
      rnd * 2 ^ c.randShift + seq =
      2 ^ c.sequenceBits * (ts * 2 ^ (c.randomBits + c.entropyBits + c.machineIdBits) +
        mid * 2 ^ (c.randomBits + c.entropyBits) + ent * 2 ^ c.randomBits + rnd) + seq := by
    rw [hsplitT, hsplitM, hsplitE, hsplitR]; ring
  rw [this, Nat.mul_add_mod, Nat.mod_eq_of_lt hseq]

theorem mod_split (x S B : Nat) :
    x % 2 ^ (S + B) = (x / 2 ^ S) % 2 ^ B * 2 ^ S + x % 2 ^ S := by
  rw [pow_add, Nat.mod_mul]
  ring

/-- Any value below the total identifier width decomposes exactly into its
five fields: packing the unpacked fields reproduces the value. -/
theorem pack_unpack (c : Config) {x : Nat}
    (hx : x < 2 ^ (c.timestampBits + c.totalBits)) :
    pack c (unpackTimestamp c x) (unpackMachineId c x) (unpackEntropy c x)
      (unpackRandom c x) (unpackSequence c x) = x := by
  have hts : unpackTimestamp c x < 2 ^ c.timestampBits := by
    unfold unpackTimestamp
    rw [Nat.shiftRight_eq_div_pow, Nat.div_lt_iff_lt_mul (Nat.two_pow_pos _)]
    calc x < 2 ^ (c.timestampBits + c.totalBits) := hx
      _ = 2 ^ c.timestampBits * 2 ^ c.totalBits := pow_add 2 _ _
  have hmid : unpackMachineId c x < 2 ^ c.machineIdBits := by
    unfold unpackMachineId
    rw [Nat.and_pow_two_sub_one_eq_mod]
    exact Nat.mod_lt _ (Nat.two_pow_pos _)
  have hent : unpackEntropy c x < 2 ^ c.entropyBits := by
    unfold unpackEntropy
    rw [Nat.and_pow_two_sub_one_eq_mod]
    exact Nat.mod_lt _ (Nat.two_pow_pos _)
  have hrnd : unpackRandom c x < 2 ^ c.randomBits := by
    unfold unpackRandom
    rw [Nat.and_pow_two_sub_one_eq_mod]
    exact Nat.mod_lt _ (Nat.two_pow_pos _)
  have hseq : unpackSequence c x < 2 ^ c.sequenceBits := by
    unfold unpackSequence Config.maxSequence
    rw [Nat.and_pow_two_sub_one_eq_mod]
    exact Nat.mod_lt _ (Nat.two_pow_pos _)
  rw [pack_eq_add c _ hmid hent hrnd hseq]
  unfold unpackTimestamp unpackMachineId unpackEntropy unpackRandom unpackSequence
    Config.maxSequence Config.totalBits Config.machineShift Config.entropyShift
    Config.randShift
  rw [Nat.shiftRight_eq_div_pow, Nat.shiftRight_eq_div_pow, Nat.shiftRight_eq_div_pow,
    Nat.shiftRight_eq_div_pow, Nat.and_pow_two_sub_one_eq_mod,
    Nat.and_pow_two_sub_one_eq_mod, Nat.and_pow_two_sub_one_eq_mod,
    Nat.and_pow_two_sub_one_eq_mod]
  have m1 := mod_split x (c.sequenceBits + c.randomBits + c.entropyBits) c.machineIdBits
  have m2 := mod_split x (c.sequenceBits + c.randomBits) c.entropyBits
  have m3 := mod_split x c.sequenceBits c.randomBits
  have m0 := Nat.div_add_mod x (2 ^ (c.sequenceBits + c.randomBits + c.entropyBits + c.machineIdBits))
  have hcomm :
      x / 2 ^ (c.sequenceBits + c.randomBits + c.entropyBits + c.machineIdBits) *
        2 ^ (c.sequenceBits + c.randomBits + c.entropyBits + c.machineIdBits) =
      2 ^ (c.sequenceBits + c.randomBits + c.entropyBits + c.machineIdBits) *
        (x / 2 ^ (c.sequenceBits + c.randomBits + c.entropyBits + c.machineIdBits)) :=
    Nat.mul_comm _ _
  omega

/-! Generator state and the sequence/clock arbiter (`nextId`, `nextIds`). -/

/-- Mutable per-instance state: `this.sequence` (starts at 0) and
`this.lastTimestamp` (starts at the sentinel `BigInt(-1)`). -/
structure GenState where
  sequence : Nat
  lastTimestamp : Int
deriving Repr, DecidableEq

/-- Freshly constructed generator state: `sequence = 0`, `lastTimestamp = -1n`. -/
def initialState : GenState := ⟨0, -1⟩

/-- Method `getTimestamp` (wall-clock path): `BigInt(Date.now()) & this.maxTimestamp`.
The raw clock reading is the oracle argument. -/
def getTimestamp (c : Config) (raw : Nat) : Nat := raw &&& c.maxTimestamp

/-- Start of `nextId`/`nextIds`: `let timestamp = this.getTimestamp(); if
(this.maskTimestamp) timestamp = obfuscateTimestamp(timestamp) & this.maxTimestamp;`.
The SHA-256 based `obfuscateTimestamp` is the oracle `obf`. -/
def maskedTimestamp (c : Config) (obf : Nat → Nat) (t : Nat) : Nat :=
  if c.maskTimestamp then obf t &&& c.maxTimestamp else t

/-- Busy-wait of the arbiter:
`while (timestamp <= lastTimestamp) { timestamp = this.getTimestamp(); }`.
`clk` is the stream of raw clock readings; `r` is the index of the next
read; the loop runs on explicit fuel and returns the final timestamp
together with the next unused read index. -/
def waitLoop (c : Config) (clk : Nat → Nat) (last : Int) : Nat → Nat → Option (Nat × Nat)
  | _, 0 => none
  | r, fuel + 1 =>
    let t := getTimestamp c (clk r)
    if (t : Int) ≤ last then waitLoop c clk last (r + 1) fuel else some (t, r + 1)

/-- Method `nextId`.  Oracles: `clk` (successive raw clock readings, read 0
being the initial `this.getTimestamp()` call), `obf` (obfuscation digest),
`ent`/`rnd` (the two `generateRandomBits` results).  Returns the packed
identifier (the value wrapped in the returned `HybridID`) and the updated
instance state, or `none` when the busy-wait fuel runs out. -/
def nextId (c : Config) (clk obf : Nat → Nat) (ent rnd : Nat) (fuel : Nat)
    (s : GenState) : Option (Nat × GenState) :=
  let timestamp := maskedTimestamp c obf (getTimestamp c (clk 0))
  if (timestamp : Int) = s.lastTimestamp then
    let seq := (s.sequence + 1) &&& c.maxSequence
    if seq = 0 then
      match waitLoop c clk s.lastTimestamp 1 fuel with
      | none => none
      | some (t, _) => some (pack c t c.machineId ent rnd seq, ⟨seq, (t : Int)⟩)
    else
      some (pack c timestamp c.machineId ent rnd seq, ⟨seq, (timestamp : Int)⟩)
  else
    some (pack c timestamp c.machineId ent rnd 0, ⟨0, (timestamp : Int)⟩)

/-- Body of the `for` loop of `nextIds`.  `count` is the number of
iterations left, `i` the batch index (indexing the `ent`/`rnd` oracle
streams), `r` the next clock-read index, `t` the cached `timestamp`
local, `last` the cached `lastTimestamp` local and `seq` the current
`this.sequence`.  Returns the generated identifiers and the final
instance state. -/
def nextIdsLoop (c : Config) (clk : Nat → Nat) (ent rnd : Nat → Nat) (fuel : Nat) :
    Nat → Nat → Nat → Nat → Int → Nat → Option (List Nat × GenState)
  | 0, _, _, _, last, seq => some ([], ⟨seq, last⟩)
  | count + 1, i, r, t, last, seq =>
    if (t : Int) = last then
      let seq' := (seq + 1) &&& c.maxSequence
      if seq' = 0 then
        match waitLoop c clk last r fuel with
        | none => none
        | some (t', r') =>
          (nextIdsLoop c clk ent rnd fuel count (i + 1) r' t' (t' : Int) seq').map
            (fun p => (pack c t' c.machineId (ent i) (rnd i) seq' :: p.1, p.2))
      else
        (nextIdsLoop c clk ent rnd fuel count (i + 1) r t (t : Int) seq').map
          (fun p => (pack c t c.machineId (ent i) (rnd i) seq' :: p.1, p.2))
    else
      (nextIdsLoop c clk ent rnd fuel count (i + 1) r t (t : Int) 0).map
        (fun p => (pack c t c.machineId (ent i) (rnd i) 0 :: p.1, p.2))

/-- Method `nextIds(batchSize)`: throws `"Batch size must be greater than 0"`
when `batchSize <= 0`; otherwise reads the clock once, applies optional
masking, caches `lastTimestamp` and runs the generation loop. -/
def nextIds (c : Config) (clk obf : Nat → Nat) (ent rnd : Nat → Nat) (fuel : Nat)
    (batchSize : Int) (s : GenState) :
    Except String (Option (List Nat × GenState)) :=
  if batchSize ≤ 0 then .error "Batch size must be greater than 0"
  else
    let timestamp := maskedTimestamp c obf (getTimestamp c (clk 0))
    .ok (nextIdsLoop c clk ent rnd fuel batchSize.toNat 0 1 timestamp
      s.lastTimestamp s.sequence)

/-- Function `generateRandomBits(randomBits, useCrypto)` from `utils.ts`.
Crypto path: fold the collaborator's random bytes with
`randomNum = (randomNum << 8) | byte` and mask with `(1 << randomBits) - 1`.
Non-crypto path: `Math.floor(Math.random() * (maxRandomValue + 1))`,
modelled by the oracle value `mathRandom`. -/
def generateRandomBits (randomBits : Nat) (useCrypto : Bool) (bytes : List Nat)
    (mathRandom : Nat) : Nat :=
  if useCrypto then
    (bytes.foldl (fun acc b => (acc <<< 8) ||| b) 0) &&& (2 ^ randomBits - 1)
  else mathRandom

/-- The crypto path of `generateRandomBits` always returns a value of the
requested width, whatever bytes the random source yields. -/
theorem generateRandomBits_lt (randomBits : Nat) (bytes : List Nat) (mr : Nat) :
    generateRandomBits randomBits true bytes mr < 2 ^ randomBits := by
  unfold generateRandomBits
  simp only [if_pos rfl]
  calc (bytes.foldl (fun acc b => (acc <<< 8) ||| b) 0) &&& (2 ^ randomBits - 1) ≤
      2 ^ randomBits - 1 := Nat.and_le_right
    _ < 2 ^ randomBits := by have := Nat.two_pow_pos randomBits; omega

theorem getTimestamp_le (c : Config) (raw : Nat) :
    getTimestamp c raw ≤ c.maxTimestamp := Nat.and_le_right

theorem maskedTimestamp_le (c : Config) (obf : Nat → Nat) (raw : Nat) :
    maskedTimestamp c obf (getTimestamp c raw) ≤ c.maxTimestamp := by
  unfold maskedTimestamp
  split
  · exact Nat.and_le_right
  · exact getTimestamp_le c raw

theorem and_maxSequence (c : Config) (x : Nat) :
    x &&& c.maxSequence = x % 2 ^ c.sequenceBits := by
  unfold Config.maxSequence
  exact Nat.and_pow_two_sub_one_eq_mod x c.sequenceBits

theorem maxTimestamp_lt (c : Config) {ts : Nat} (h : ts ≤ c.maxTimestamp) :
    ts < 2 ^ c.timestampBits := by
  unfold Config.maxTimestamp at h
  have := Nat.two_pow_pos c.timestampBits
  omega

theorem maxMachineId_lt (c : Config) {m : Nat} (h : m ≤ c.maxMachineId) :
    m < 2 ^ c.machineIdBits := by
  unfold Config.maxMachineId at h
  have := Nat.two_pow_pos c.machineIdBits
  omega

theorem maxSequence_lt (c : Config) {sq : Nat} (h : sq ≤ c.maxSequence) :
    sq < 2 ^ c.sequenceBits := by
  unfold Config.maxSequence at h
  have := Nat.two_pow_pos c.sequenceBits
  omega

/-- Unpacking a generator-shaped identifier recovers all five fields. -/
theorem unpack_pack_fields (c : Config) {ts mid ent rnd seq : Nat}
    (hmid : mid ≤ c.maxMachineId)
    (hent : ent < 2 ^ c.entropyBits) (hrnd : rnd < 2 ^ c.randomBits)
    (hseq : seq ≤ c.maxSequence) :
    unpackTimestamp c (pack c ts mid ent rnd seq) = ts ∧
    unpackMachineId c (pack c ts mid ent rnd seq) = mid ∧
    unpackEntropy c (pack c ts mid ent rnd seq) = ent ∧
    unpackRandom c (pack c ts mid ent rnd seq) = rnd ∧
    unpackSequence c (pack c ts mid ent rnd seq) = seq := by
  have hm := maxMachineId_lt c hmid
  have hs := maxSequence_lt c hseq
  exact ⟨unpack_pack_timestamp c ts hm hent hrnd hs,
    unpack_pack_machineId c ts hm hent hrnd hs,
    unpack_pack_entropy c ts hm hent hrnd hs,
    unpack_pack_random c ts hm hent hrnd hs,
    unpack_pack_sequence c ts hm hent hrnd hs⟩

/-- When the busy-wait loop exits, the timestamp it produced came from a
clock re-read (index at least the starting index) and is strictly greater
than the stale `lastTimestamp`. -/
theorem waitLoop_some {c : Config} {clk : Nat → Nat} {last : Int}
    {r fuel t r' : Nat} (h : waitLoop c clk last r fuel = some (t, r')) :
    last < (t : Int) ∧ ∃ i, r ≤ i ∧ t = getTimestamp c (clk i) := by
  induction fuel generalizing r with
  | zero => simp [waitLoop] at h
  | succ n ih =>
    unfold waitLoop at h
    by_cases hc : ((getTimestamp c (clk r) : Int) ≤ last)
    · simp only [hc, if_true, if_pos] at h
      obtain ⟨h1, i, hi, he⟩ := ih h
      exact ⟨h1, i, by omega, he⟩
    · simp only [hc, if_false, if_neg, not_false_iff] at h
      obtain ⟨ht, _⟩ := Prod.mk.injEq .. ▸ Option.some.injEq .. ▸ h
      exact ⟨by rw [← ht]; omega, r, Nat.le_refl r, ht.symm⟩

/-- Shape of a successful `nextId` call: the new `lastTimestamp` is the
(in-range) timestamp that was packed, the new sequence is in range, and
the returned identifier is the packing of the five fields. -/
theorem nextId_some {c : Config} {clk obf : Nat → Nat} {ent rnd fuel : Nat}
    {s : GenState} {id : Nat} {s' : GenState}
    (h : nextId c clk obf ent rnd fuel s = some (id, s')) :
    ∃ ts : Nat, ts ≤ c.maxTimestamp ∧ s'.lastTimestamp = (ts : Int) ∧
      s'.sequence ≤ c.maxSequence ∧
      id = pack c ts c.machineId ent rnd s'.sequence := by
  unfold nextId at h
  by_cases h1 : ((maskedTimestamp c obf (getTimestamp c (clk 0)) : Int) = s.lastTimestamp)
  · simp only [h1, if_pos] at h
    by_cases h2 : (s.sequence + 1) &&& c.maxSequence = 0
    · simp only [h2, if_pos] at h
      cases hw : waitLoop c clk s.lastTimestamp 1 fuel with
      | none => rw [hw] at h; simp at h
      | some p =>
        rw [hw] at h
        obtain ⟨t, r'⟩ := p
        rw [Option.some.injEq, Prod.mk.injEq] at h
        obtain ⟨hid, hs'⟩ := h
        subst hid
        subst hs'
        obtain ⟨_, i, _, he⟩ := waitLoop_some hw
        exact ⟨t, he ▸ getTimestamp_le c (clk i), rfl, Nat.zero_le _, rfl⟩
    · rw [if_neg h2, Option.some.injEq, Prod.mk.injEq] at h
      obtain ⟨hid, hs'⟩ := h
      subst hid
      subst hs'
      exact ⟨maskedTimestamp c obf (getTimestamp c (clk 0)),
        maskedTimestamp_le c obf (clk 0), h1.symm, Nat.and_le_right, rfl⟩
  · rw [if_neg h1, Option.some.injEq, Prod.mk.injEq] at h
    obtain ⟨hid, hs'⟩ := h
    subst hid
    subst hs'
    exact ⟨maskedTimestamp c obf (getTimestamp c (clk 0)),
      maskedTimestamp_le c obf (clk 0), rfl, Nat.zero_le _, rfl⟩

/-- Full branch behaviour of one `nextId` step: same-tick increment,
wrap-triggered busy wait, reset on tick change, state update and packing. -/
theorem nextId_step (c : Config) (clk obf : Nat → Nat) (ent rnd fuel : Nat)
    (s : GenState) (id : Nat) (s' : GenState)
    (hmid : c.machineId ≤ c.maxMachineId)
    (hent : ent < 2 ^ c.entropyBits) (hrnd : rnd < 2 ^ c.randomBits)
    (hgen : nextId c clk obf ent rnd fuel s = some (id, s')) :
    (((maskedTimestamp c obf (getTimestamp c (clk 0)) : Int) = s.lastTimestamp) →
      s'.sequence = (s.sequence + 1) % 2 ^ c.sequenceBits ∧
      ((s.sequence + 1) % 2 ^ c.sequenceBits ≠ 0 →
        s'.lastTimestamp = (maskedTimestamp c obf (getTimestamp c (clk 0)) : Int)) ∧
      ((s.sequence + 1) % 2 ^ c.sequenceBits = 0 →
        s.lastTimestamp < s'.lastTimestamp ∧
        ∃ i, 1 ≤ i ∧ s'.lastTimestamp = (getTimestamp c (clk i) : Int))) ∧
    (((maskedTimestamp c obf (getTimestamp c (clk 0)) : Int) ≠ s.lastTimestamp) →
      s'.sequence = 0 ∧
      s'.lastTimestamp = (maskedTimestamp c obf (getTimestamp c (clk 0)) : Int)) ∧
    unpackSequence c id = s'.sequence ∧
    (unpackTimestamp c id : Int) = s'.lastTimestamp := by
  have main : unpackSequence c id = s'.sequence ∧
      (unpackTimestamp c id : Int) = s'.lastTimestamp := by
    obtain ⟨ts, hts, hlast, hsl, hid⟩ := nextId_some hgen
    constructor
    · rw [hid]
      exact (unpack_pack_fields c hmid hent hrnd hsl).2.2.2.2
    · rw [hid, (unpack_pack_fields c hmid hent hrnd hsl).1, hlast]
  refine ⟨?_, ?_, main⟩
  · intro heq
    unfold nextId at hgen
    rw [if_pos heq] at hgen
    by_cases h2 : (s.sequence + 1) &&& c.maxSequence = 0
    · have h2' : (s.sequence + 1) % 2 ^ c.sequenceBits = 0 := by
        rw [← and_maxSequence]; exact h2
      simp only [h2, if_pos] at hgen
      cases hw : waitLoop c clk s.lastTimestamp 1 fuel with
      | none => rw [hw] at hgen; simp at hgen
      | some p =>
        rw [hw] at hgen
        obtain ⟨t, r'⟩ := p
        rw [Option.some.injEq, Prod.mk.injEq] at hgen
        obtain ⟨hid, hs'⟩ := hgen
        subst hs'
        obtain ⟨hgt, i, hi, he⟩ := waitLoop_some hw
        refine ⟨h2'.symm, fun hne => absurd h2' hne, fun _ => ⟨hgt, i, hi, ?_⟩⟩
        show (t : Int) = (getTimestamp c (clk i) : Int)
        exact_mod_cast congrArg (Nat.cast : Nat → Int) he
    · have h2' : (s.sequence + 1) % 2 ^ c.sequenceBits ≠ 0 := by
        rw [← and_maxSequence]; exact h2
      rw [if_neg h2, Option.some.injEq, Prod.mk.injEq] at hgen
      obtain ⟨hid, hs'⟩ := hgen
      subst hs'
      refine ⟨?_, fun _ => rfl, fun hz => absurd hz h2'⟩
      show (s.sequence + 1) &&& c.maxSequence = (s.sequence + 1) % 2 ^ c.sequenceBits
      exact and_maxSequence c (s.sequence + 1)
  · intro hne
    unfold nextId at hgen
    rw [if_neg hne, Option.some.injEq, Prod.mk.injEq] at hgen
    obtain ⟨hid, hs'⟩ := hgen
    subst hs'
    exact ⟨rfl, rfl⟩

/-- C2: On every generation request, if the (possibly masked) current
timestamp `t` equals `lastTimestamp`, `nextId` sets the sequence to
`(sequence + 1) mod 2 ^ sequenceBits` and, when that increment wraps to 0,
re-reads the clock until it returns a value strictly greater than
`lastTimestamp`; if `t` differs from `lastTimestamp` (including backward
clock movement) it resets the sequence to 0; in all cases it then sets
`lastTimestamp` to the timestamp used and packs that timestamp and
sequence into the returned identifier. -/
theorem nextId_arbiter_spec (c : Config) (clk obf : Nat → Nat) (ent rnd fuel : Nat)
    (s : GenState) (id : Nat) (s' : GenState)
    (hmid : c.machineId ≤ c.maxMachineId)
    (hent : ent < 2 ^ c.entropyBits) (hrnd : rnd < 2 ^ c.randomBits)
    (hgen : nextId c clk obf ent rnd fuel s = some (id, s')) :
    (((maskedTimestamp c obf (getTimestamp c (clk 0)) : Int) = s.lastTimestamp) →
      s'.sequence = (s.sequence + 1) % 2 ^ c.sequenceBits ∧
      ((s.sequence + 1) % 2 ^ c.sequenceBits ≠ 0 →
        s'.lastTimestamp = (maskedTimestamp c obf (getTimestamp c (clk 0)) : Int)) ∧
      ((s.sequence + 1) % 2 ^ c.sequenceBits = 0 →
        s.lastTimestamp < s'.lastTimestamp ∧
        ∃ i, 1 ≤ i ∧ s'.lastTimestamp = (getTimestamp c (clk i) : Int))) ∧
    (((maskedTimestamp c obf (getTimestamp c (clk 0)) : Int) ≠ s.lastTimestamp) →
      s'.sequence = 0 ∧
      s'.lastTimestamp = (maskedTimestamp c obf (getTimestamp c (clk 0)) : Int)) ∧
    unpackSequence c id = s'.sequence ∧
    (unpackTimestamp c id : Int) = s'.lastTimestamp :=
  nextId_step c clk obf ent rnd fuel s id s' hmid hent hrnd hgen

/-- Default configuration of the library (constructor defaults
`sequenceBits 12, randomBits 10, entropyBits 5, machineIdBits 12,
timestampBits 42, maskTimestamp false`) with explicit machine ID 1. -/
def cDefault : Config := ⟨12, 10, 5, 12, 42, false, 1⟩

/-- Witness for `nextId_arbiter_spec`: a concrete fresh-state call with a
frozen clock at raw time 100 packs timestamp 100 and sequence 0. -/
theorem nextId_arbiter_spec_witness :
    unpackSequence cDefault (pack cDefault 100 1 3 5 0) =
      (GenState.mk 0 100).sequence ∧
    (unpackTimestamp cDefault (pack cDefault 100 1 3 5 0) : Int) =
      (GenState.mk 0 100).lastTimestamp :=
  (nextId_arbiter_spec cDefault (fun _ => 100) (fun t => t) 3 5 1 ⟨0, -1⟩
    (pack cDefault 100 1 3 5 0) ⟨0, 100⟩ (by decide) (by decide) (by decide)
    (by decide)).2.2

theorem pack_lt_succ (c : Config) {mid ent rnd seq : Nat} (ts : Nat)
    (hmid : mid < 2 ^ c.machineIdBits) (hent : ent < 2 ^ c.entropyBits)
    (hrnd : rnd < 2 ^ c.randomBits) (hseq : seq < 2 ^ c.sequenceBits) :
    pack c ts mid ent rnd seq < (ts + 1) * 2 ^ c.totalBits := by
  rw [pack_eq_add c ts hmid hent hrnd hseq, Nat.succ_mul]
  have := low_lt c hmid hent hrnd hseq
  omega

theorem pack_ge (c : Config) {mid ent rnd seq : Nat} (ts : Nat)
    (hmid : mid < 2 ^ c.machineIdBits) (hent : ent < 2 ^ c.entropyBits)
    (hrnd : rnd < 2 ^ c.randomBits) (hseq : seq < 2 ^ c.sequenceBits) :
    ts * 2 ^ c.totalBits ≤ pack c ts mid ent rnd seq := by
  rw [pack_eq_add c ts hmid hent hrnd hseq]
  omega

/-- Counterexample to C3 as stated: with the default configuration, a
frozen (hence non-backward) clock and fresh entropy/random draws, the
second of two consecutive identifiers can be numerically smaller than the
first, because the resampled entropy/random fields are more significant
than the sequence field. -/
theorem nextId_not_monotone_same_tick :
    nextId cDefault (fun _ => 100) (fun t => t) 31 1023 1 ⟨0, -1⟩ =
      some (pack cDefault 100 1 31 1023 0, ⟨0, 100⟩) ∧
    nextId cDefault (fun _ => 100) (fun t => t) 0 0 1 ⟨0, 100⟩ =
      some (pack cDefault 100 1 0 0 1, ⟨1, 100⟩) ∧
    pack cDefault 100 1 0 0 1 < pack cDefault 100 1 31 1023 0 := by
  decide

/-- C3 (amended): two consecutive serialized `nextId` calls always produce
distinct identifiers, and the second identifier is numerically greater
whenever the timestamp it records is strictly greater than the first call
timestamp; within one timestamp tick no numeric ordering is guaranteed. -/
theorem nextId_consecutive_distinct_ordered (c : Config)
    (clk1 obf1 clk2 obf2 : Nat → Nat) (ent1 rnd1 ent2 rnd2 fuel1 fuel2 : Nat)
    (s0 s1 s2 : GenState) (id1 id2 : Nat)
    (hmid : c.machineId ≤ c.maxMachineId)
    (hent1 : ent1 < 2 ^ c.entropyBits) (hrnd1 : rnd1 < 2 ^ c.randomBits)
    (hent2 : ent2 < 2 ^ c.entropyBits) (hrnd2 : rnd2 < 2 ^ c.randomBits)
    (h1 : nextId c clk1 obf1 ent1 rnd1 fuel1 s0 = some (id1, s1))
    (h2 : nextId c clk2 obf2 ent2 rnd2 fuel2 s1 = some (id2, s2)) :
    id1 ≠ id2 ∧ (s1.lastTimestamp < s2.lastTimestamp → id1 < id2) := by
  obtain ⟨ts1, hts1, hlast1, hsl1, hid1⟩ := nextId_some h1
  obtain ⟨ts2, hts2, hlast2, hsl2, hid2⟩ := nextId_some h2
  have u1 := @unpack_pack_fields c ts1 c.machineId ent1 rnd1 s1.sequence
    hmid hent1 hrnd1 hsl1
  have u2 := @unpack_pack_fields c ts2 c.machineId ent2 rnd2 s2.sequence
    hmid hent2 hrnd2 hsl2
  have hm' := maxMachineId_lt c hmid
  have hs1' := maxSequence_lt c hsl1
  have hs2' := maxSequence_lt c hsl2
  constructor
  · intro heq
    have hts : ts1 = ts2 := by
      have e1 : unpackTimestamp c id1 = ts1 := hid1 ▸ u1.1
      have e2 : unpackTimestamp c id2 = ts2 := hid2 ▸ u2.1
      rw [← e1, ← e2, heq]
    have hseq : s1.sequence = s2.sequence := by
      have e1 : unpackSequence c id1 = s1.sequence := hid1 ▸ u1.2.2.2.2
      have e2 : unpackSequence c id2 = s2.sequence := hid2 ▸ u2.2.2.2.2
      rw [← e1, ← e2, heq]
    have hlasteq : s1.lastTimestamp = s2.lastTimestamp := by
      rw [hlast1, hlast2, hts]
    have spec2 := nextId_step c clk2 obf2 ent2 rnd2 fuel2 s1 id2 s2
      hmid hent2 hrnd2 h2
    by_cases hcase :
        ((maskedTimestamp c obf2 (getTimestamp c (clk2 0)) : Int) = s1.lastTimestamp)
    · obtain ⟨hseq2, hnw, hw⟩ := spec2.1 hcase
      by_cases hz : (s1.sequence + 1) % 2 ^ c.sequenceBits = 0
      · have hcontr := (hw hz).1
        rw [hlasteq] at hcontr
        exact absurd hcontr (lt_irrefl _)
      · have hx : s1.sequence = (s1.sequence + 1) % 2 ^ c.sequenceBits :=
          hseq.trans hseq2
        rcases Nat.lt_or_ge (s1.sequence + 1) (2 ^ c.sequenceBits) with hlt | hge
        · rw [Nat.mod_eq_of_lt hlt] at hx
          omega
        · have hEq : s1.sequence + 1 = 2 ^ c.sequenceBits := by omega
          exact hz (by rw [hEq]; exact Nat.mod_self _)
    · obtain ⟨_, hlt2⟩ := spec2.2.1 hcase
      apply hcase
      rw [← hlt2, hlast2, hlast1, hts]
  · intro hlt
    have hlt' : ts1 < ts2 := by
      rw [hlast1, hlast2] at hlt
      exact_mod_cast hlt
    calc id1 = pack c ts1 c.machineId ent1 rnd1 s1.sequence := hid1
      _ < (ts1 + 1) * 2 ^ c.totalBits := pack_lt_succ c ts1 hm' hent1 hrnd1 hs1'
      _ ≤ ts2 * 2 ^ c.totalBits := Nat.mul_le_mul_right _ hlt'
      _ ≤ pack c ts2 c.machineId ent2 rnd2 s2.sequence :=
        pack_ge c ts2 hm' hent2 hrnd2 hs2'
      _ = id2 := hid2.symm

/-- Witness for `nextId_consecutive_distinct_ordered`: two concrete calls
on advancing clock ticks give distinct, increasing identifiers. -/
theorem nextId_consecutive_distinct_ordered_witness :
    pack cDefault 100 1 3 5 0 ≠ pack cDefault 200 1 3 5 0 ∧
    ((GenState.mk 0 100).lastTimestamp < (GenState.mk 0 200).lastTimestamp →
      pack cDefault 100 1 3 5 0 < pack cDefault 200 1 3 5 0) :=
  nextId_consecutive_distinct_ordered cDefault (fun _ => 100) (fun t => t)
    (fun _ => 200) (fun t => t) 3 5 3 5 1 1 ⟨0, -1⟩ ⟨0, 100⟩ ⟨0, 200⟩
    (pack cDefault 100 1 3 5 0) (pack cDefault 200 1 3 5 0)
    (by decide) (by decide) (by decide) (by decide) (by decide)
    (by decide) (by decide)

/-- Strict lexicographic order on the (timestamp, sequence) key of an
identifier; within one batch the emitted keys strictly increase. -/
def keyLt (c : Config) (a b : Nat) : Prop :=
  unpackTimestamp c a < unpackTimestamp c b ∨
    (unpackTimestamp c a = unpackTimestamp c b ∧
      unpackSequence c a < unpackSequence c b)

instance (c : Config) : IsTrans Nat (keyLt c) := by
  constructor
  intro a b d hab hbd
  rcases hab with h1 | ⟨h1, h2⟩ <;> rcases hbd with h3 | ⟨h3, h4⟩
  · exact Or.inl (h1.trans h3)
  · exact Or.inl (h3 ▸ h1)
  · exact Or.inl (h1 ▸ h3)
  · exact Or.inr ⟨h1.trans h3, h2.trans h4⟩

theorem keyLt_ne {c : Config} {a b : Nat} (h : keyLt c a b) : a ≠ b := by
  intro he
  subst he
  rcases h with h1 | ⟨_, h2⟩
  · exact absurd h1 (lt_irrefl _)
  · exact absurd h2 (lt_irrefl _)

theorem chain'_cons_of_head (c : Config) {id0 : Nat} {ids0 : List Nat} {T S : Nat}
    (hts : unpackTimestamp c id0 = T) (hsq : unpackSequence c id0 = S)
    (hS : S < 2 ^ c.sequenceBits)
    (hchain : List.Chain' (keyLt c) ids0)
    (hhead : ∀ h0, ids0.head? = some h0 →
      (unpackTimestamp c h0 = T ∧
        unpackSequence c h0 = (S + 1) % 2 ^ c.sequenceBits ∧
        unpackSequence c h0 ≠ 0) ∨
      ((T : Int) < (unpackTimestamp c h0 : Int) ∧ unpackSequence c h0 = 0)) :
    List.Chain' (keyLt c) (id0 :: ids0) := by
  rw [List.chain'_cons']
  refine ⟨?_, hchain⟩
  intro h0 hh0
  rcases hhead h0 hh0 with ⟨he, hse, hne⟩ | ⟨hlt, _⟩
  · right
    refine ⟨by rw [hts, he], ?_⟩
    rw [hsq, hse]
    rcases Nat.lt_or_ge (S + 1) (2 ^ c.sequenceBits) with hlt2 | hge
    · rw [Nat.mod_eq_of_lt hlt2]
      omega
    · have hEq : S + 1 = 2 ^ c.sequenceBits := by omega
      rw [hEq, Nat.mod_self] at hse
      exact absurd hse hne
  · left
    rw [hts]
    exact_mod_cast hlt

/-- Invariant of the `nextIds` generation loop: it emits exactly `count`
identifiers, their (timestamp, sequence) keys strictly increase
lexicographically, the first emitted key is pinned by the entry state, and
every identifier is the packing of in-range fields. -/
theorem nextIdsLoop_spec (c : Config) (clk : Nat → Nat) (ent rnd : Nat → Nat)
    (fuel : Nat) (hmid : c.machineId ≤ c.maxMachineId)
    (hent : ∀ i, ent i < 2 ^ c.entropyBits) (hrnd : ∀ i, rnd i < 2 ^ c.randomBits) :
    ∀ count i r t last seq ids s',
      t ≤ c.maxTimestamp → seq ≤ c.maxSequence →
      nextIdsLoop c clk ent rnd fuel count i r t last seq = some (ids, s') →
      ids.length = count ∧ List.Chain' (keyLt c) ids ∧
      (∀ h0, ids.head? = some h0 →
        (((t : Int) = last →
          (unpackTimestamp c h0 = t ∧
            unpackSequence c h0 = (seq + 1) % 2 ^ c.sequenceBits ∧
            unpackSequence c h0 ≠ 0) ∨
          (last < (unpackTimestamp c h0 : Int) ∧ unpackSequence c h0 = 0)) ∧
         ((t : Int) ≠ last →
          unpackTimestamp c h0 = t ∧ unpackSequence c h0 = 0))) ∧
      (∀ x ∈ ids, ∃ ts e r0 sq, ts ≤ c.maxTimestamp ∧ e < 2 ^ c.entropyBits ∧
        r0 < 2 ^ c.randomBits ∧ sq ≤ c.maxSequence ∧
        x = pack c ts c.machineId e r0 sq) := by
  intro count
  induction count with
  | zero =>
    intro i r t last seq ids s' _ _ h
    unfold nextIdsLoop at h
    rw [Option.some.injEq, Prod.mk.injEq] at h
    obtain ⟨hids, _⟩ := h
    subst hids
    refine ⟨rfl, List.chain'_nil, ?_, ?_⟩
    · intro h0 hh0
      simp at hh0
    · intro x hx
      simp at hx
  | succ n ih =>
    intro i r t last seq ids s' htle hsqle h
    unfold nextIdsLoop at h
    by_cases hbr : (t : Int) = last
    · rw [if_pos hbr] at h
      by_cases hz : (seq + 1) &&& c.maxSequence = 0
      · simp only [hz, if_pos] at h
        cases hw : waitLoop c clk last r fuel with
        | none => rw [hw] at h; simp at h
        | some p =>
          rw [hw] at h
          obtain ⟨t', r'⟩ := p
          rw [Option.map_eq_some'] at h
          obtain ⟨⟨ids0, s0⟩, hrec, hmap⟩ := h
          rw [Prod.mk.injEq] at hmap
          obtain ⟨hids, _⟩ := hmap
          subst hids
          obtain ⟨hgt, j, hj, hje⟩ := waitLoop_some hw
          have ht' : t' ≤ c.maxTimestamp := hje ▸ getTimestamp_le c (clk j)
          obtain ⟨hlen, hchain, hhead, hmem⟩ :=
            ih (i + 1) r' t' (t' : Int) 0 ids0 s0 ht' (Nat.zero_le _) hrec
          have hu := @unpack_pack_fields c t' c.machineId (ent i) (rnd i) 0
            hmid (hent i) (hrnd i) (Nat.zero_le _)
          refine ⟨by simp [hlen], ?_, ?_, ?_⟩
          · refine chain'_cons_of_head c hu.1 hu.2.2.2.2
              (Nat.two_pow_pos _) hchain ?_
            intro h0 hh0
            exact (hhead h0 hh0).1 rfl
          · intro h0 hh0
            rw [List.head?_cons, Option.some.injEq] at hh0
            subst hh0
            constructor
            · intro _
              right
              rw [hu.1, hu.2.2.2.2]
              exact ⟨hgt, rfl⟩
            · intro hne
              exact absurd hbr hne
          · intro x hx
            rcases List.mem_cons.mp hx with hx | hx
            · exact ⟨t', ent i, rnd i, 0, ht', hent i, hrnd i, Nat.zero_le _, hx⟩
            · exact hmem x hx
      · rw [if_neg hz, Option.map_eq_some'] at h
        obtain ⟨⟨ids0, s0⟩, hrec, hmap⟩ := h
        rw [Prod.mk.injEq] at hmap
        obtain ⟨hids, _⟩ := hmap
        subst hids
        have hsq' : (seq + 1) &&& c.maxSequence ≤ c.maxSequence := Nat.and_le_right
        obtain ⟨hlen, hchain, hhead, hmem⟩ :=
          ih (i + 1) r t (t : Int) ((seq + 1) &&& c.maxSequence) ids0 s0 htle hsq' hrec
        have hu := @unpack_pack_fields c t c.machineId (ent i) (rnd i)
          ((seq + 1) &&& c.maxSequence) hmid (hent i) (hrnd i) hsq'
        have hmod : (seq + 1) &&& c.maxSequence = (seq + 1) % 2 ^ c.sequenceBits :=
          and_maxSequence c (seq + 1)
        refine ⟨by simp [hlen], ?_, ?_, ?_⟩
        · refine chain'_cons_of_head c hu.1 hu.2.2.2.2
            (maxSequence_lt c hsq') hchain ?_
          intro h0 hh0
          exact (hhead h0 hh0).1 rfl
        · intro h0 hh0
          rw [List.head?_cons, Option.some.injEq] at hh0
          subst hh0
          constructor
          · intro _
            left
            exact ⟨hu.1, by rw [hu.2.2.2.2, hmod], by rw [hu.2.2.2.2]; exact hz⟩
          · intro hne
            exact absurd hbr hne
        · intro x hx
          rcases List.mem_cons.mp hx with hx | hx
          · exact ⟨t, ent i, rnd i, (seq + 1) &&& c.maxSequence, htle, hent i,
              hrnd i, hsq', hx⟩
          · exact hmem x hx
    · rw [if_neg hbr, Option.map_eq_some'] at h
      obtain ⟨⟨ids0, s0⟩, hrec, hmap⟩ := h
      rw [Prod.mk.injEq] at hmap
      obtain ⟨hids, _⟩ := hmap
      subst hids
      obtain ⟨hlen, hchain, hhead, hmem⟩ :=
        ih (i + 1) r t (t : Int) 0 ids0 s0 htle (Nat.zero_le _) hrec
      have hu := @unpack_pack_fields c t c.machineId (ent i) (rnd i) 0
        hmid (hent i) (hrnd i) (Nat.zero_le _)
      refine ⟨by simp [hlen], ?_, ?_, ?_⟩
      · refine chain'_cons_of_head c hu.1 hu.2.2.2.2
          (Nat.two_pow_pos _) hchain ?_
        intro h0 hh0
        exact (hhead h0 hh0).1 rfl
      · intro h0 hh0
        rw [List.head?_cons, Option.some.injEq] at hh0
        subst hh0
        constructor
        · intro he
          exact absurd he hbr
        · intro _
          exact ⟨hu.1, hu.2.2.2.2⟩
      · intro x hx
        rcases List.mem_cons.mp hx with hx | hx
        · exact ⟨t, ent i, rnd i, 0, htle, hent i, hrnd i, Nat.zero_le _, hx⟩
        · exact hmem x hx

/-- C6: nextIds(n) throws InvalidArgument for every n ≤ 0 without mutating
the generator state (the error is returned before any generation step);
for every n > 0 it returns an array of exactly n identifiers that are
pairwise distinct, produced sequentially by the single-generation
algorithm on the same instance state. -/
theorem nextIds_batch_spec (c : Config) (clk obf : Nat → Nat) (ent rnd : Nat → Nat)
    (fuel : Nat) (batchSize : Int) (s : GenState)
    (hmid : c.machineId ≤ c.maxMachineId)
    (hseq : s.sequence ≤ c.maxSequence)
    (hent : ∀ i, ent i < 2 ^ c.entropyBits) (hrnd : ∀ i, rnd i < 2 ^ c.randomBits) :
    (batchSize ≤ 0 →
      nextIds c clk obf ent rnd fuel batchSize s =
        .error "Batch size must be greater than 0") ∧
    (∀ ids s', nextIds c clk obf ent rnd fuel batchSize s = .ok (some (ids, s')) →
      ids.length = batchSize.toNat ∧ List.Pairwise (· ≠ ·) ids) := by
  constructor
  · intro hle
    unfold nextIds
    rw [if_pos hle]
  · intro ids s' h
    by_cases hbs : batchSize ≤ 0
    · unfold nextIds at h
      rw [if_pos hbs] at h
      exact absurd h (by simp)
    · unfold nextIds at h
      rw [if_neg hbs, Except.ok.injEq] at h
      obtain ⟨hlen, hchain, -, -⟩ :=
        nextIdsLoop_spec c clk ent rnd fuel hmid hent hrnd batchSize.toNat 0 1
          (maskedTimestamp c obf (getTimestamp c (clk 0))) s.lastTimestamp
          s.sequence ids s' (maskedTimestamp_le c obf (clk 0)) hseq h
      refine ⟨hlen, ?_⟩
      exact (List.chain'_iff_pairwise.mp hchain).imp (fun h => keyLt_ne h)

/-- Witness for `nextIds_batch_spec`: rejection of batch size 0 and a
concrete two-element batch with distinct identifiers. -/
theorem nextIds_batch_spec_witness :
    nextIds cDefault (fun _ => 100) (fun t => t) (fun _ => 3) (fun _ => 5) 1 0
      ⟨0, -1⟩ = .error "Batch size must be greater than 0" ∧
    ([pack cDefault 100 1 3 5 0, pack cDefault 100 1 3 5 1].length =
      (2 : Int).toNat ∧
      List.Pairwise (· ≠ ·) [pack cDefault 100 1 3 5 0, pack cDefault 100 1 3 5 1]) := by
  constructor
  · exact (nextIds_batch_spec cDefault (fun _ => 100) (fun t => t) (fun _ => 3)
      (fun _ => 5) 1 0 ⟨0, -1⟩ (by decide) (by decide)
      (fun _ => show (3 : Nat) < 2 ^ cDefault.entropyBits by decide)
      (fun _ => show (5 : Nat) < 2 ^ cDefault.randomBits by decide)).1 (by decide)
  · exact (nextIds_batch_spec cDefault (fun _ => 100) (fun t => t) (fun _ => 3)
      (fun _ => 5) 1 2 ⟨0, -1⟩ (by decide) (by decide)
      (fun _ => show (3 : Nat) < 2 ^ cDefault.entropyBits by decide)
      (fun _ => show (5 : Nat) < 2 ^ cDefault.randomBits by decide)).2
      [pack cDefault 100 1 3 5 0, pack cDefault 100 1 3 5 1] ⟨1, 100⟩ (by rfl)

/-- C1: For every field-width configuration and every field tuple with each
component in range, unpacking the packed identifier returns exactly the
original tuple, and packing the unpacked fields of any identifier of the
configured width returns that identifier; packing places the timestamp
most significant and the sequence least significant with shift offsets
determined by the field widths. -/
theorem pack_unpack_roundtrip (c : Config) :
    (∀ ts mid ent rnd seq : Nat,
      ts < 2 ^ c.timestampBits → mid < 2 ^ c.machineIdBits →
      ent < 2 ^ c.entropyBits → rnd < 2 ^ c.randomBits → seq < 2 ^ c.sequenceBits →
      pack c ts mid ent rnd seq =
        ts * 2 ^ c.totalBits + mid * 2 ^ c.machineShift + ent * 2 ^ c.entropyShift +
          rnd * 2 ^ c.randShift + seq ∧
      unpackTimestamp c (pack c ts mid ent rnd seq) = ts ∧
      unpackMachineId c (pack c ts mid ent rnd seq) = mid ∧
      unpackEntropy c (pack c ts mid ent rnd seq) = ent ∧
      unpackRandom c (pack c ts mid ent rnd seq) = rnd ∧
      unpackSequence c (pack c ts mid ent rnd seq) = seq) ∧
    (∀ x : Nat, x < 2 ^ (c.timestampBits + c.totalBits) →
      pack c (unpackTimestamp c x) (unpackMachineId c x) (unpackEntropy c x)
        (unpackRandom c x) (unpackSequence c x) = x) := by
  constructor
  · intro ts mid ent rnd seq _ hm he hr hs
    exact ⟨pack_eq_add c ts hm he hr hs, unpack_pack_timestamp c ts hm he hr hs,
      unpack_pack_machineId c ts hm he hr hs, unpack_pack_entropy c ts hm he hr hs,
      unpack_pack_random c ts hm he hr hs, unpack_pack_sequence c ts hm he hr hs⟩
  · intro x hx
    exact pack_unpack c hx

/-- Witness for `pack_unpack_roundtrip` at the default configuration. -/
theorem pack_unpack_roundtrip_witness :
    (pack cDefault 100 1 3 5 7 =
      100 * 2 ^ cDefault.totalBits + 1 * 2 ^ cDefault.machineShift +
        3 * 2 ^ cDefault.entropyShift + 5 * 2 ^ cDefault.randShift + 7 ∧
      unpackTimestamp cDefault (pack cDefault 100 1 3 5 7) = 100 ∧
      unpackMachineId cDefault (pack cDefault 100 1 3 5 7) = 1 ∧
      unpackEntropy cDefault (pack cDefault 100 1 3 5 7) = 3 ∧
      unpackRandom cDefault (pack cDefault 100 1 3 5 7) = 5 ∧
      unpackSequence cDefault (pack cDefault 100 1 3 5 7) = 7) ∧
    pack cDefault (unpackTimestamp cDefault 123456789)
      (unpackMachineId cDefault 123456789) (unpackEntropy cDefault 123456789)
      (unpackRandom cDefault 123456789) (unpackSequence cDefault 123456789) =
      123456789 :=
  ⟨(pack_unpack_roundtrip cDefault).1 100 1 3 5 7 (by decide) (by decide)
      (by decide) (by decide) (by decide),
    (pack_unpack_roundtrip cDefault).2 123456789 (by decide)⟩

/-! Base62 codec (`constants.ts` and `utils.ts`). -/

/-- Constant `Base62Chars` from `constants.ts`:
digits, lowercase letters, uppercase letters. -/
def base62Chars : List Char :=
  "0123456789abcdefghijklmnopqrstuvwxyzABCDEFGHIJKLMNOPQRSTUVWXYZ".toList

/-- Loop of `encodeBase62`: `while (num > 0) { encoded =
Base62Chars[Number(num % 62n)] + encoded; num = num / 62n; }`, building the
digit list most significant first. -/
def encodeBase62Aux : Nat → List Char
  | 0 => []
  | n + 1 => encodeBase62Aux ((n + 1) / 62) ++ [base62Chars.getD ((n + 1) % 62) ' ']
decreasing_by exact Nat.div_lt_self (Nat.succ_pos n) (by omega)

/-- Function `encodeBase62` from `utils.ts`: the digit loop, with
`return encoded || '0'` mapping the empty result (input 0) to `"0"`. -/
def encodeBase62 (n : Nat) : List Char :=
  if encodeBase62Aux n = [] then ['0'] else encodeBase62Aux n

/-- JavaScript `String.prototype.indexOf` on the alphabet: the index of the
first occurrence, or `-1` when the character does not occur. -/
def jsIndexOf (l : List Char) (ch : Char) : Int :=
  if ch ∈ l then (l.indexOf ch : Int) else -1

/-- Function `decodeBase62` from `utils.ts`:
`num = num * 62n + BigInt(Base62Chars.indexOf(encoded[i]))` over the
characters, starting from 0.  No validation is performed: an absent
character contributes `indexOf`'s not-found result `-1`. -/
def decodeBase62 (s : List Char) : Int :=
  s.foldl (fun num ch => num * 62 + jsIndexOf base62Chars ch) 0

theorem base62_digit_index : ∀ k : Nat, k < 62 →
    jsIndexOf base62Chars (base62Chars.getD k ' ') = (k : Int) := by
  decide

theorem encodeBase62Aux_ne_nil {n : Nat} (h : n ≠ 0) : encodeBase62Aux n ≠ [] := by
  match n with
  | 0 => exact absurd rfl h
  | m + 1 => simp [encodeBase62Aux]

theorem decodeAux_encodeAux (n : Nat) : ∀ init : Int,
    (encodeBase62Aux n).foldl (fun num ch => num * 62 + jsIndexOf base62Chars ch)
      init = init * 62 ^ (encodeBase62Aux n).length + n := by
  induction n using Nat.strong_induction_on with
  | _ n ih =>
    match n with
    | 0 =>
      intro init
      simp [encodeBase62Aux]
    | m + 1 =>
      intro init
      have hstep : encodeBase62Aux (m + 1) =
          encodeBase62Aux ((m + 1) / 62) ++ [base62Chars.getD ((m + 1) % 62) ' '] := by
        simp [encodeBase62Aux]
      rw [hstep, List.foldl_append,
        ih ((m + 1) / 62) (Nat.div_lt_self (Nat.succ_pos m) (by omega)) init]
      simp only [List.foldl_cons, List.foldl_nil, List.length_append,
        List.length_singleton]
      rw [base62_digit_index ((m + 1) % 62) (Nat.mod_lt _ (by omega))]
      have hdm : 62 * ((m + 1) / 62) + (m + 1) % 62 = m + 1 := Nat.div_add_mod _ _
      have hdm' : (62 : Int) * ((m + 1) / 62 : Nat) + ((m + 1) % 62 : Nat) =
          ((m + 1 : Nat) : Int) := by exact_mod_cast congrArg (Nat.cast : Nat → Int) hdm
      rw [pow_succ]
      push_cast at hdm' ⊢
      ring_nf
      ring_nf at hdm'
      omega

/-- C4: For every non-negative integer n, decodeBase62(encodeBase62(n)) = n,
and encodeBase62(0) is the single-character string "0", not the empty
string. -/
theorem base62_roundtrip :
    (∀ n : Nat, decodeBase62 (encodeBase62 n) = (n : Int)) ∧
    encodeBase62 0 = ['0'] := by
  have henc0 : encodeBase62 0 = ['0'] := by
    simp [encodeBase62, encodeBase62Aux]
  refine ⟨?_, henc0⟩
  intro n
  by_cases h0 : n = 0
  · subst h0
    rw [henc0]
    decide
  · unfold encodeBase62
    rw [if_neg (encodeBase62Aux_ne_nil h0)]
    unfold decodeBase62
    rw [decodeAux_encodeAux n 0]
    simp

/-- C5 (code bug in the source, acknowledged by the spec): `decodeBase62`
performs no alphabet validation — a character outside the alphabet is
mapped to `indexOf`'s not-found result `-1` and silently corrupts the
result instead of failing: decoding the invalid text `"1!"` yields 61,
the same value as decoding the valid text `"Z"`. -/
theorem decodeBase62_invalid_char_corrupts :
    ('!' ∉ base62Chars) ∧ decodeBase62 ['1', '!'] = 61 ∧
      decodeBase62 ['Z'] = 61 ∧ decodeBase62 ['!'] = -1 := by
  decide

/-! Validator, info and expiry (`HybridIDGenerator.ts`), and machine-id
validation (`utils.ts`). -/

/-- Polymorphic candidate input of `isHybridID`/`info`: a `HybridID`
instance (carrying its bigint value), a raw bigint, or an encoded string. -/
inductive IDInput where
  | hid (b : Int)
  | big (b : Int)
  | str (s : List Char)
deriving Repr, DecidableEq

/-- Character class of the regex `[0-9a-zA-Z]` used by `isHybridID` on
string inputs (codepoint ranges 48-57, 97-122, 65-90). -/
def isBase62Char (ch : Char) : Bool :=
  (48 ≤ ch.toNat && ch.toNat ≤ 57) || (97 ≤ ch.toNat && ch.toNat ≤ 122) ||
    (65 ≤ ch.toNat && ch.toNat ≤ 90)

/-- Bigint tail of `isHybridID`: extract each field and check its range.
`id >> BigInt(totalBits)` is arithmetic shift, i.e. floor division.  The
masked extractions run on `id.toNat`: they are only reached when the
timestamp checks passed, which forces `id ≥ 0`, where `BigInt` bitwise
operations agree with the `Nat` ones.  The source's `machineId < 0`,
`randomBits < 0` and `sequence < 0` guards are omitted: the masked values
are naturals. -/
def isHybridIDBig (c : Config) (id : Int) : Bool :=
  if Int.fdiv id (2 ^ c.totalBits) < 0 then false
  else if Int.fdiv id (2 ^ c.totalBits) > (c.maxTimestamp : Int) then false
  else if unpackMachineId c id.toNat > c.maxMachineId then false
  else if unpackRandom c id.toNat ≥ 2 ^ c.randomBits then false
  else if unpackSequence c id.toNat > c.maxSequence then false
  else true

/-- Method `isHybridID`: a `HybridID` instance is accepted immediately
with no further checks; a string must be non-empty, match
`^[0-9a-zA-Z]+$` and then pass the bigint checks on its decoded value
(`fromBase62` cannot throw, so the `try`/`catch` never fires); a bigint
goes straight to the field checks. -/
def isHybridID (c : Config) : IDInput → Bool
  | .hid _ => true
  | .str s =>
    if s ≠ [] ∧ s.all isBase62Char then isHybridIDBig c (decodeBase62 s)
    else false
  | .big b => isHybridIDBig c b

/-- Record returned by `info`. -/
structure HybridIDInfo where
  timestamp : Int
  machineId : Nat
  randomBits : Nat
  sequence : Nat
  masked : Bool
deriving Repr, DecidableEq

/-- First step of `info`: `if (id instanceof HybridID) id = id.toBigInt()`. -/
def idAsBig : IDInput → IDInput
  | .hid b => .big b
  | other => other

/-- The bigint value `info` extracts fields from: the decoded value for a
string input, the wrapped or raw bigint otherwise. -/
def inputValue : IDInput → Int
  | .str s => decodeBase62 s
  | .big b => b
  | .hid b => b

/-- Method `info`: converts a `HybridID` to its bigint, validates with
`isHybridID` (throwing `"Invalid ID"` on failure), decodes a string
input, extracts the fields, and reports the sentinel timestamp `-1`
together with `masked = true` when the generator's masking mode is on. -/
def info (c : Config) (x : IDInput) : Except String HybridIDInfo :=
  if isHybridID c (idAsBig x) then
    .ok { timestamp := if c.maskTimestamp then -1
            else Int.fdiv (inputValue x) (2 ^ c.totalBits)
          machineId := unpackMachineId c (inputValue x).toNat
          randomBits := unpackRandom c (inputValue x).toNat
          sequence := unpackSequence c (inputValue x).toNat
          masked := c.maskTimestamp }
  else .error "Invalid ID"

/-- Method `isIdExpired` (wall-clock path, the default): returns `false`
immediately when masking is enabled; otherwise compares the age of the
extracted creation timestamp against the expiry duration.  `nowMs` is the
oracle value of `Date.now()`. -/
def isIdExpired (c : Config) (id : Int) (nowMs : Int)
    (expiryDurationInMillis : Int) : Bool :=
  if c.maskTimestamp then false
  else
    nowMs - (((Int.fdiv id (2 ^ c.totalBits)).toNat &&& c.maxTimestamp : Nat) : Int) >
      expiryDurationInMillis

/-- Argument forms of the `machineId` option. -/
inductive MachineIdValue where
  | num (n : Int)
  | str (s : List Char)
  | undef
deriving Repr, DecidableEq

/-- Function `validateMachineId(machineIdStrategy, machineId, maxMachineId)`
from `utils.ts`, used by the constructor for the explicit and `random`
strategies.  `randomFallback` is the oracle value of
`Math.floor(Math.random() * (maxMachineId + 1))`. -/
def validateMachineId (strategy : Option String) (machineId : MachineIdValue)
    (maxMachineId : Nat) (randomFallback : Nat) : Except String Int :=
  if strategy = some "random" then
    match machineId with
    | .num n =>
      if n < 0 ∨ n > (maxMachineId : Int) then .error "Machine ID out of range"
      else .ok n
    | _ => .error "machineId must be provided as a number"
  else
    match machineId with
    | .num n =>
      if n < 0 ∨ n > (maxMachineId : Int) then .error "Machine ID out of range"
      else .ok n
    | _ => .ok (randomFallback : Int)

theorem unpackMachineId_le (c : Config) (x : Nat) :
    unpackMachineId c x ≤ c.maxMachineId := by
  unfold unpackMachineId Config.maxMachineId
  exact Nat.and_le_right

theorem unpackRandom_lt (c : Config) (x : Nat) :
    unpackRandom c x < 2 ^ c.randomBits := by
  unfold unpackRandom
  have h1 := Nat.two_pow_pos c.randomBits
  have h2 : (x >>> c.randShift) &&& (2 ^ c.randomBits - 1) ≤ 2 ^ c.randomBits - 1 :=
    Nat.and_le_right
  omega

theorem unpackSequence_le (c : Config) (x : Nat) :
    unpackSequence c x ≤ c.maxSequence := Nat.and_le_right

theorem mem_isBase62Char {ch : Char} (h : ch ∈ base62Chars) :
    isBase62Char ch = true := by
  have key : ∀ ch ∈ base62Chars, isBase62Char ch = true := by decide
  exact key ch h

set_option maxRecDepth 4000 in
theorem isBase62Char_mem {ch : Char} (h : isBase62Char ch = true) :
    ch ∈ base62Chars := by
  have hlt : ch.toNat < 123 := by
    unfold isBase62Char at h
    simp only [Bool.or_eq_true, Bool.and_eq_true, decide_eq_true_eq] at h
    omega
  have key : ∀ n : Nat, n < 123 → isBase62Char (Char.ofNat n) = true →
      Char.ofNat n ∈ base62Chars := by decide
  have hk := key ch.toNat hlt
  rw [Char.ofNat_toNat] at hk
  exact hk h

/-- The bigint field checks accept exactly the values of the configured
total width: the timestamp checks are the only ones that can fail, since
the masked machine-id, random and sequence extractions are within range by
construction. -/
theorem isHybridIDBig_iff (c : Config) (b : Int) :
    isHybridIDBig c b = true ↔
      0 ≤ b ∧ b < 2 ^ (c.timestampBits + c.totalBits) := by
  unfold isHybridIDBig
  have hpos : (0 : Int) < 2 ^ c.totalBits := by positivity
  by_cases h1 : Int.fdiv b (2 ^ c.totalBits) < 0
  · rw [if_pos h1]
    have hb : b < 0 := by
      by_contra hnn
      push_neg at hnn
      have := Int.fdiv_nonneg hnn (le_of_lt hpos)
      omega
    constructor
    · intro h
      exact absurd h (by simp)
    · rintro ⟨h0, -⟩
      omega
  · rw [if_neg h1]
    push_neg at h1
    have hb : 0 ≤ b := by
      by_contra hneg
      push_neg at hneg
      have := Int.fdiv_neg' hneg hpos
      omega
    obtain ⟨n, rfl⟩ : ∃ n : Nat, b = (n : Int) :=
      ⟨b.toNat, (Int.toNat_of_nonneg hb).symm⟩
    have hfd : Int.fdiv (n : Int) (2 ^ c.totalBits) =
        ((n / 2 ^ c.totalBits : Nat) : Int) := by
      rw [show ((2 : Int) ^ c.totalBits) = ((2 ^ c.totalBits : Nat) : Int) from by
        push_cast; ring]
      exact (Int.ofNat_fdiv n (2 ^ c.totalBits)).symm
    rw [hfd, Int.toNat_natCast]
    by_cases h2 : ((n / 2 ^ c.totalBits : Nat) : Int) > (c.maxTimestamp : Int)
    · rw [if_pos h2]
      constructor
      · intro h
        exact absurd h (by simp)
      · rintro ⟨-, hlt⟩
        exfalso
        have hn : n < 2 ^ (c.timestampBits + c.totalBits) := by exact_mod_cast hlt
        have hdiv : n / 2 ^ c.totalBits < 2 ^ c.timestampBits := by
          rw [Nat.div_lt_iff_lt_mul (Nat.two_pow_pos _)]
          calc n < 2 ^ (c.timestampBits + c.totalBits) := hn
            _ = 2 ^ c.timestampBits * 2 ^ c.totalBits := pow_add 2 _ _
        have hmax : n / 2 ^ c.totalBits ≤ c.maxTimestamp := by
          unfold Config.maxTimestamp
          omega
        have hcast : ((n / 2 ^ c.totalBits : Nat) : Int) ≤ (c.maxTimestamp : Int) := by
          exact_mod_cast hmax
        omega
    · rw [if_neg h2, if_neg (not_lt.mpr (unpackMachineId_le c n)),
        if_neg (not_le.mpr (unpackRandom_lt c n)),
        if_neg (not_lt.mpr (unpackSequence_le c n))]
      constructor
      · intro _
        refine ⟨Int.natCast_nonneg n, ?_⟩
        push_neg at h2
        have hmax : (n / 2 ^ c.totalBits : Nat) ≤ c.maxTimestamp := by
          exact_mod_cast h2
        unfold Config.maxTimestamp at hmax
        have h2p := Nat.two_pow_pos c.timestampBits
        have hdiv : n / 2 ^ c.totalBits < 2 ^ c.timestampBits := by omega
        have hlt : n < 2 ^ c.timestampBits * 2 ^ c.totalBits :=
          (Nat.div_lt_iff_lt_mul (Nat.two_pow_pos _)).mp hdiv
        have hn : n < 2 ^ (c.timestampBits + c.totalBits) := by
          rw [pow_add]
          exact hlt
        exact_mod_cast hn
      · intro _
        rfl

/-- Every character of the alphabet-validated string class is in the
configured alphabet and conversely, so the `[0-9a-zA-Z]` regex test of
`isHybridID` checks exactly membership in `Base62Chars`. -/
theorem all_isBase62Char_iff (s : List Char) :
    s.all isBase62Char = true ↔ ∀ ch ∈ s, ch ∈ base62Chars := by
  rw [List.all_eq_true]
  constructor
  · intro h ch hch
    exact isBase62Char_mem (h ch hch)
  · intro h ch hch
    exact mem_isBase62Char (h ch hch)

theorem decodeBase62_nonneg {s : List Char} (h : ∀ ch ∈ s, ch ∈ base62Chars) :
    0 ≤ decodeBase62 s := by
  unfold decodeBase62
  suffices hgen : ∀ init : Int, 0 ≤ init →
      0 ≤ s.foldl (fun num ch => num * 62 + jsIndexOf base62Chars ch) init by
    exact hgen 0 le_rfl
  induction s with
  | nil => intro init h0; simpa using h0
  | cons a l ih =>
    intro init h0
    rw [List.foldl_cons]
    have ha : a ∈ base62Chars := h a (List.mem_cons_self a l)
    have hidx : 0 ≤ jsIndexOf base62Chars a := by
      unfold jsIndexOf
      rw [if_pos ha]
      exact Int.natCast_nonneg _
    exact ih (fun ch hch => h ch (List.mem_cons_of_mem a hch)) _ (by positivity)

set_option maxRecDepth 4000 in
/-- Counterexample to C7 as stated: a `HybridID`-typed candidate is
accepted by `isHybridID` without any bounds check, even when its value
fails every timestamp bound the bigint path checks. -/
theorem isHybridID_hid_skips_bounds :
    isHybridID cDefault (.hid (2 ^ 100)) = true ∧
    isHybridIDBig cDefault (2 ^ 100) = false := by
  constructor
  · rfl
  · decide

/-- C7 (amended): `isHybridID` is total and Boolean on all three input
forms; a raw bigint is unpacked and bounds-checked (accepted exactly when
it is a non-negative value of the configured total width — the masked
machine-id, random and sequence extractions always pass their checks); a
string is first validated to be non-empty and made only of configured
alphabet characters, then decoded and bounds-checked; but a pre-decoded
`HybridID` instance is accepted unconditionally, with no bounds checks. -/
theorem isHybridID_characterization (c : Config) :
    (∀ b : Int, isHybridID c (.hid b) = true) ∧
    (∀ b : Int, isHybridID c (.big b) = true ↔
      0 ≤ b ∧ b < 2 ^ (c.timestampBits + c.totalBits)) ∧
    (∀ s : List Char, isHybridID c (.str s) = true ↔
      s ≠ [] ∧ (∀ ch ∈ s, ch ∈ base62Chars) ∧
      decodeBase62 s < 2 ^ (c.timestampBits + c.totalBits)) := by
  refine ⟨fun _ => rfl, fun b => isHybridIDBig_iff c b, ?_⟩
  intro s
  show (if s ≠ [] ∧ s.all isBase62Char then isHybridIDBig c (decodeBase62 s)
    else false) = true ↔ _
  by_cases hc : s ≠ [] ∧ s.all isBase62Char
  · rw [if_pos hc, isHybridIDBig_iff]
    have hall := (all_isBase62Char_iff s).mp hc.2
    constructor
    · rintro ⟨-, hlt⟩
      exact ⟨hc.1, hall, hlt⟩
    · rintro ⟨-, -, hlt⟩
      exact ⟨decodeBase62_nonneg hall, hlt⟩
  · rw [if_neg hc]
    constructor
    · intro h
      exact absurd h (by simp)
    · rintro ⟨hne, hmem, -⟩
      exact absurd ⟨hne, (all_isBase62Char_iff s).mpr hmem⟩ hc

/-- Witness for `isHybridID_characterization` at the default widths. -/
theorem isHybridID_characterization_witness :
    isHybridID cDefault (.hid 5) = true ∧
    (isHybridID cDefault (.big 123) = true ↔
      0 ≤ (123 : Int) ∧ (123 : Int) <
        2 ^ (cDefault.timestampBits + cDefault.totalBits)) ∧
    (isHybridID cDefault (.str ['7']) = true ↔
      (['7'] : List Char) ≠ [] ∧ (∀ ch ∈ (['7'] : List Char), ch ∈ base62Chars) ∧
      decodeBase62 ['7'] < 2 ^ (cDefault.timestampBits + cDefault.totalBits)) :=
  ⟨(isHybridID_characterization cDefault).1 5,
   (isHybridID_characterization cDefault).2.1 123,
   (isHybridID_characterization cDefault).2.2 ['7']⟩

/-- Masked default configuration (`maskTimestamp: true`). -/
def cMasked : Config := ⟨12, 10, 5, 12, 42, true, 1⟩

/-- C8: with `maskTimestamp` enabled, every successful `info` call reports
`masked = true` and the sentinel timestamp `-1` instead of a recovered
creation time, and `isIdExpired` always returns `false` (fails closed),
for every candidate and every duration. -/
theorem masked_info_expiry (c : Config) (hm : c.maskTimestamp = true) :
    (∀ x r, info c x = .ok r → r.masked = true ∧ r.timestamp = -1) ∧
    (∀ id now d, isIdExpired c id now d = false) := by
  constructor
  · intro x r h
    unfold info at h
    by_cases hv : isHybridID c (idAsBig x)
    · rw [if_pos hv, Except.ok.injEq] at h
      subst h
      exact ⟨hm, by rw [hm]; rfl⟩
    · rw [if_neg hv] at h
      exact absurd h (by simp)
  · intro id now d
    unfold isIdExpired
    rw [hm]
    rfl

/-- Witness for `masked_info_expiry` on a concrete masked generator. -/
theorem masked_info_expiry_witness :
    info cMasked (IDInput.big 7) = .ok ⟨-1, 0, 0, 7, true⟩ ∧
    ((⟨-1, 0, 0, 7, true⟩ : HybridIDInfo).masked = true ∧
      (⟨-1, 0, 0, 7, true⟩ : HybridIDInfo).timestamp = -1) ∧
    isIdExpired cMasked 42 1000 0 = false :=
  ⟨by rfl,
   (masked_info_expiry cMasked rfl).1 (IDInput.big 7) ⟨-1, 0, 0, 7, true⟩ (by rfl),
   (masked_info_expiry cMasked rfl).2 42 1000 0⟩

/-- C9: validateMachineId with the explicit (no-strategy) numeric form
fails whenever m < 0 or m ≥ 2^machineIdBits and succeeds returning m for
0 ≤ m ≤ 2^machineIdBits − 1; with the default 12-bit width, machine ID
4096 is rejected and 4095 is accepted. -/
theorem validateMachineId_explicit_range :
    (∀ (mB : Nat) (m : Int) (r : Nat), m < 0 ∨ (2 : Int) ^ mB ≤ m →
      validateMachineId none (.num m) (2 ^ mB - 1) r =
        .error "Machine ID out of range") ∧
    (∀ (mB : Nat) (m : Int) (r : Nat), 0 ≤ m → m ≤ (2 : Int) ^ mB - 1 →
      validateMachineId none (.num m) (2 ^ mB - 1) r = .ok m) ∧
    validateMachineId none (.num 4096) (2 ^ 12 - 1) 0 =
      .error "Machine ID out of range" ∧
    validateMachineId none (.num 4095) (2 ^ 12 - 1) 0 = .ok 4095 := by
  have hcast : ∀ mB : Nat, ((2 ^ mB - 1 : Nat) : Int) = (2 : Int) ^ mB - 1 := by
    intro mB
    have h1 : (1 : Nat) ≤ 2 ^ mB := Nat.one_le_two_pow
    push_cast [h1]
    ring
  refine ⟨?_, ?_, by rfl, by rfl⟩
  · intro mB m r h
    unfold validateMachineId
    rw [if_neg (show ¬(none : Option String) = some "random" by simp)]
    show (if m < 0 ∨ m > ((2 ^ mB - 1 : Nat) : Int) then
        (Except.error "Machine ID out of range" : Except String Int)
      else .ok m) = .error "Machine ID out of range"
    have hcond : m < 0 ∨ m > ((2 ^ mB - 1 : Nat) : Int) := by
      rw [hcast]
      omega
    rw [if_pos hcond]
  · intro mB m r h0 h1
    unfold validateMachineId
    rw [if_neg (show ¬(none : Option String) = some "random" by simp)]
    show (if m < 0 ∨ m > ((2 ^ mB - 1 : Nat) : Int) then
        (Except.error "Machine ID out of range" : Except String Int)
      else .ok m) = .ok m
    have hcond : ¬(m < 0 ∨ m > ((2 ^ mB - 1 : Nat) : Int)) := by
      rw [hcast]
      omega
    rw [if_neg hcond]

/-- Witness for `validateMachineId_explicit_range`: −1 rejected, 7
accepted at the default width. -/
theorem validateMachineId_explicit_range_witness :
    validateMachineId none (.num (-1)) (2 ^ 12 - 1) 0 =
      .error "Machine ID out of range" ∧
    validateMachineId none (.num 7) (2 ^ 12 - 1) 0 = .ok 7 :=
  ⟨validateMachineId_explicit_range.1 12 (-1) 0 (Or.inl (by decide)),
   validateMachineId_explicit_range.2.1 12 7 0 (by decide) (by decide)⟩

theorem pack_lt_total (c : Config) {ts mid ent rnd seq : Nat}
    (hts : ts ≤ c.maxTimestamp) (hmid : mid < 2 ^ c.machineIdBits)
    (hent : ent < 2 ^ c.entropyBits) (hrnd : rnd < 2 ^ c.randomBits)
    (hseq : seq < 2 ^ c.sequenceBits) :
    pack c ts mid ent rnd seq < 2 ^ (c.timestampBits + c.totalBits) := by
  have h1 := pack_lt_succ c ts hmid hent hrnd hseq
  have hts' : ts + 1 ≤ 2 ^ c.timestampBits := maxTimestamp_lt c hts
  calc pack c ts mid ent rnd seq < (ts + 1) * 2 ^ c.totalBits := h1
    _ ≤ 2 ^ c.timestampBits * 2 ^ c.totalBits := Nat.mul_le_mul_right _ hts'
    _ = 2 ^ (c.timestampBits + c.totalBits) := (pow_add 2 _ _).symm

theorem isHybridID_big_of_lt (c : Config) {id : Nat}
    (h : id < 2 ^ (c.timestampBits + c.totalBits)) :
    isHybridID c (.big (id : Int)) = true := by
  show isHybridIDBig c (id : Int) = true
  rw [isHybridIDBig_iff]
  exact ⟨Int.natCast_nonneg _, by exact_mod_cast h⟩

/-- C10: every identifier returned by nextId() or nextIds(n) on an
instance satisfies that same instance's validator, because every packed
field is within its configured range — the timestamp (including the
obfuscated timestamp in masked mode, which is masked with maxTimestamp
before packing) is at most maxTimestamp, machineId at most maxMachineId,
entropy below 2^entropyBits, random below 2^randomBits, and sequence at
most maxSequence. -/
theorem generated_ids_valid (c : Config) (hmid : c.machineId ≤ c.maxMachineId) :
    (∀ clk obf : Nat → Nat, ∀ ent rnd fuel : Nat, ∀ s : GenState,
      ∀ id : Nat, ∀ s' : GenState,
      ent < 2 ^ c.entropyBits → rnd < 2 ^ c.randomBits →
      nextId c clk obf ent rnd fuel s = some (id, s') →
      isHybridID c (.big (id : Int)) = true ∧
      unpackTimestamp c id ≤ c.maxTimestamp ∧
      unpackMachineId c id ≤ c.maxMachineId ∧
      unpackEntropy c id < 2 ^ c.entropyBits ∧
      unpackRandom c id < 2 ^ c.randomBits ∧
      unpackSequence c id ≤ c.maxSequence) ∧
    (∀ clk obf : Nat → Nat, ∀ ent rnd : Nat → Nat, ∀ fuel : Nat, ∀ n : Int,
      ∀ s : GenState, ∀ ids : List Nat, ∀ s' : GenState,
      (∀ i, ent i < 2 ^ c.entropyBits) → (∀ i, rnd i < 2 ^ c.randomBits) →
      s.sequence ≤ c.maxSequence →
      nextIds c clk obf ent rnd fuel n s = .ok (some (ids, s')) →
      ∀ id ∈ ids, isHybridID c (.big (id : Int)) = true) := by
  constructor
  · intro clk obf ent rnd fuel s id s' hent hrnd hgen
    obtain ⟨ts, hts, hlast, hsl, hid⟩ := nextId_some hgen
    have hu := @unpack_pack_fields c ts c.machineId ent rnd s'.sequence
      hmid hent hrnd hsl
    have hlt : id < 2 ^ (c.timestampBits + c.totalBits) := by
      rw [hid]
      exact pack_lt_total c hts (maxMachineId_lt c hmid) hent hrnd
        (maxSequence_lt c hsl)
    refine ⟨isHybridID_big_of_lt c hlt, ?_, ?_, ?_, ?_, ?_⟩
    · rw [hid, hu.1]
      exact hts
    · rw [hid, hu.2.1]
      exact hmid
    · rw [hid, hu.2.2.1]
      exact hent
    · rw [hid, hu.2.2.2.1]
      exact hrnd
    · rw [hid, hu.2.2.2.2]
      exact hsl
  · intro clk obf ent rnd fuel n s ids s' hent hrnd hseq h
    by_cases hn : n ≤ 0
    · unfold nextIds at h
      rw [if_pos hn] at h
      exact absurd h (by simp)
    · unfold nextIds at h
      rw [if_neg hn, Except.ok.injEq] at h
      obtain ⟨-, -, -, hmem⟩ :=
        nextIdsLoop_spec c clk ent rnd fuel hmid hent hrnd n.toNat 0 1
          (maskedTimestamp c obf (getTimestamp c (clk 0))) s.lastTimestamp
          s.sequence ids s' (maskedTimestamp_le c obf (clk 0)) hseq h
      intro id hidm
      obtain ⟨ts, e, r0, sq, hts, he, hr, hsq, hid⟩ := hmem id hidm
      have hlt : id < 2 ^ (c.timestampBits + c.totalBits) := by
        rw [hid]
        exact pack_lt_total c hts (maxMachineId_lt c hmid) he hr
          (maxSequence_lt c hsq)
      exact isHybridID_big_of_lt c hlt

/-- Witness for `generated_ids_valid`: concrete single and batch
generations at the default widths pass the validator. -/
theorem generated_ids_valid_witness :
    (isHybridID cDefault (.big ((pack cDefault 100 1 3 5 0 : Nat) : Int)) = true ∧
      unpackTimestamp cDefault (pack cDefault 100 1 3 5 0) ≤ cDefault.maxTimestamp ∧
      unpackMachineId cDefault (pack cDefault 100 1 3 5 0) ≤ cDefault.maxMachineId ∧
      unpackEntropy cDefault (pack cDefault 100 1 3 5 0) < 2 ^ cDefault.entropyBits ∧
      unpackRandom cDefault (pack cDefault 100 1 3 5 0) < 2 ^ cDefault.randomBits ∧
      unpackSequence cDefault (pack cDefault 100 1 3 5 0) ≤ cDefault.maxSequence) ∧
    isHybridID cDefault (.big ((pack cDefault 100 1 3 5 1 : Nat) : Int)) = true := by
  constructor
  · exact (generated_ids_valid cDefault (by decide)).1 (fun _ => 100) (fun t => t)
      3 5 1 ⟨0, -1⟩ (pack cDefault 100 1 3 5 0) ⟨0, 100⟩ (by decide) (by decide)
      (by decide)
  · exact (generated_ids_valid cDefault (by decide)).2 (fun _ => 100) (fun t => t)
      (fun _ => 3) (fun _ => 5) 1 2 ⟨0, -1⟩
      [pack cDefault 100 1 3 5 0, pack cDefault 100 1 3 5 1] ⟨1, 100⟩
      (fun _ => show (3 : Nat) < 2 ^ cDefault.entropyBits by decide)
      (fun _ => show (5 : Nat) < 2 ^ cDefault.randomBits by decide)
      (by decide) (by rfl) (pack cDefault 100 1 3 5 1) (by simp)

end HybridId
